import Mathlib

/-!
Verification of the tiny-url storage/identity-generation core.

The Go source is shallowly embedded:
* `utils/encoding.go` — the base62 codec (`EncodeBase62`, `DecodeBase62`),
  with `uint64` arithmetic modelled as `Nat` reduced modulo `2^64` exactly
  where the Go code can overflow;
* `models/url.go` — the `URLMapping` record, with timestamps as `Int`;
* `storage/memory.go` — the in-memory store, whose Go map is modelled as a
  key-unique association list and whose `time.Now()` is an explicit `now`
  argument; errors are the store's actual format strings;
* `storage/redis.go` — the parts that are decided locally (the stats
  degradation on scan failure, the atomic-increment id generation), with
  the network outcomes passed in explicitly.
-/

/-- The modulus of Go's `uint64` arithmetic. -/
def U64 : Nat := 2 ^ 64

deriving instance DecidableEq for Except

namespace utils

/-- `base62Chars` from `utils/encoding.go`:
digits, then lowercase, then uppercase. -/
def base62Chars : String := "0123456789abcdefghijklmnopqrstuvwxyzABCDEFGHIJKLMNOPQRSTUVWXYZ"

/-- Character at index `i` of `base62Chars` (the Go byte-index `base62Chars[i]`;
the string is ASCII so bytes and characters coincide). -/
def base62Char (i : Nat) : Char := base62Chars.toList.getD i ' '

/-- The loop of `EncodeBase62`: `result = string(base62Chars[id%62]) + result;
id /= 62` while `id > 0`.  Structural recursion on a fuel argument; `fuel ≥ id`
suffices because `id` strictly decreases. -/
def encodeLoop : Nat → Nat → List Char
  | 0, _ => []
  | fuel + 1, id => if id = 0 then [] else encodeLoop fuel (id / 62) ++ [base62Char (id % 62)]

/-- `EncodeBase62` from `utils/encoding.go`. -/
def EncodeBase62 (id : Nat) : String :=
  if id = 0 then "0" else ⟨encodeLoop id id⟩

/-- The `switch` of `DecodeBase62`: maps a character to its alphabet index,
`none` for the `default` branch (invalid character). -/
def charValue (c : Char) : Option Nat :=
  if '0' ≤ c ∧ c ≤ '9' then some (c.toNat - '0'.toNat)
  else if 'a' ≤ c ∧ c ≤ 'z' then some (c.toNat - 'a'.toNat + 10)
  else if 'A' ≤ c ∧ c ≤ 'Z' then some (c.toNat - 'A'.toNat + 36)
  else none

/-- The loop of `DecodeBase62`, iterating over the characters from the last to
the first (the argument list is the input reversed), carrying `base` and
`result`; both are `uint64`, hence the `% U64`.  `none` models the early
`return 0` on an invalid character. -/
def decodeLoop : List Char → Nat → Nat → Option Nat
  | [], _, result => some result
  | c :: rest, base, result =>
    match charValue c with
    | none => none
    | some value => decodeLoop rest (base * 62 % U64) ((result + value * base) % U64)

/-- `DecodeBase62` from `utils/encoding.go`; the early `return 0` of the
`default` branch becomes `Option.getD 0`. -/
def DecodeBase62 (encoded : String) : Nat :=
  (decodeLoop encoded.toList.reverse 1 0).getD 0

example : EncodeBase62 0 = "0" := by decide
example : EncodeBase62 1 = "1" := by decide
example : EncodeBase62 61 = "Z" := by decide
example : EncodeBase62 62 = "10" := by decide
example : EncodeBase62 63 = "11" := by decide
example : DecodeBase62 "10" = 62 := by decide
example : DecodeBase62 "!" = 0 := by decide
example : DecodeBase62 (EncodeBase62 123456789) = 123456789 := by decide

end utils

namespace models

/-- `URLMapping` from `models/url.go`.  `time.Time` is modelled as `Int`
(a point on a linear time line); `*time.Time` as `Option Int`. -/
structure URLMapping where
  ID : Nat
  ShortCode : String
  LongURL : String
  ExpirationDate : Option Int
  CreatedAt : Int
deriving DecidableEq

end models

namespace storage

open utils models

/-- Go-map lookup `m.urls[shortCode]` on the association-list model. -/
def mapLookup (k : String) : List (String × URLMapping) → Option URLMapping
  | [] => none
  | (k', v) :: rest => if k' = k then some v else mapLookup k rest

/-- Removes every binding of key `k` (helper for key-unique insertion). -/
def mapErase (k : String) : List (String × URLMapping) → List (String × URLMapping)
  | [] => []
  | (k', v) :: rest => if k' = k then mapErase k rest else (k', v) :: mapErase k rest

/-- Go-map assignment `m.urls[shortCode] = mapping`: binds `k`, keeping keys
unique as in a Go map. -/
def mapInsert (k : String) (v : URLMapping) (l : List (String × URLMapping)) :
    List (String × URLMapping) :=
  (k, v) :: mapErase k l

/-- `MemoryStorage` from `storage/memory.go` (the `sync.RWMutex` guards the
map; in this sequential model the map is accessed directly). -/
structure MemoryStorage where
  urls : List (String × URLMapping)
  counter : Nat
  baseURL : String
deriving DecidableEq

/-- `NewMemoryStorage` from `storage/memory.go`. -/
def NewMemoryStorage (baseURL : String) : MemoryStorage :=
  { urls := [], counter := 0, baseURL := baseURL }

/-- `IsExpired` from `storage/memory.go` (identical in `storage/redis.go`);
`time.Now()` is the explicit `now` argument, `Time.After` is `<` on `Int`. -/
def IsExpired (mapping : URLMapping) (now : Int) : Bool :=
  match mapping.ExpirationDate with
  | none => false
  | some t => decide (t < now)

/-- `Store` from `storage/memory.go`.  `atomic.AddUint64(&m.counter, 1)`
returns the incremented value with `uint64` wrap-around; the Go method's
`error` result is always `nil`, so it is elided.  Returns the short code and
the updated store. -/
def MemoryStorage.Store (m : MemoryStorage) (mapping : URLMapping) (now : Int) :
    String × MemoryStorage :=
  let id := (m.counter + 1) % U64
  let shortCode := EncodeBase62 id
  let mapping' := { mapping with ID := id, ShortCode := shortCode, CreatedAt := now }
  (shortCode, { m with counter := id, urls := mapInsert shortCode mapping' m.urls })

/-- `Get` from `storage/memory.go`, with the store's actual error strings. -/
def MemoryStorage.Get (m : MemoryStorage) (shortCode : String) (now : Int) :
    Except String URLMapping :=
  match mapLookup shortCode m.urls with
  | none => Except.error ("short code not found: " ++ shortCode)
  | some mapping =>
    if IsExpired mapping now then Except.error ("URL has expired: " ++ shortCode)
    else Except.ok mapping

/-- The result shape of `GetStats` (the Go `map[string]interface{}` with keys
`total_urls`, `current_counter`, `storage_type`). -/
structure Stats where
  total_urls : Nat
  current_counter : Nat
  storage_type : String
deriving DecidableEq

/-- `GetStats` from `storage/memory.go`. -/
def MemoryStorage.GetStats (m : MemoryStorage) : Stats :=
  { total_urls := m.urls.length, current_counter := m.counter, storage_type := "memory" }

/-- `Get` from `storage/redis.go`: the network fetch outcome (`redis.Nil`,
another error, or the deserialized record) is the explicit `fetch` argument;
the expiration check and error texts are the code's. -/
def RedisStorage.Get (fetch : Except String (Option URLMapping)) (shortCode : String)
    (now : Int) : Except String URLMapping :=
  match fetch with
  | Except.error e => Except.error ("failed to get URL mapping from Redis: " ++ e)
  | Except.ok none => Except.error ("short code not found: " ++ shortCode)
  | Except.ok (some mapping) =>
    if IsExpired mapping now then Except.error ("URL has expired: " ++ shortCode)
    else Except.ok mapping

/-- `GetStats` from `storage/redis.go`: the `KEYS url:*` scan outcome is the
explicit `scanResult` argument; `if err != nil { totalUrls = 0 }` is the
match.  The function is total: no error is ever returned. -/
def RedisStorage.GetStats (counter : Nat) (scanResult : Except String Nat) : Stats :=
  let totalUrls := match scanResult with
    | Except.ok n => n
    | Except.error _ => 0
  { total_urls := totalUrls, current_counter := counter, storage_type := "redis" }

/-- Runs a batch of `Store` calls in order from a given store, returning the
final store and the list of returned short codes. -/
def runStores (m : MemoryStorage) : List (URLMapping × Int) → MemoryStorage × List String
  | [] => (m, [])
  | (r, now) :: ops =>
    let p := m.Store r now
    let q := runStores p.2 ops
    (q.1, p.1 :: q.2)

/-- The invariant of the local store claimed by the spec: every map entry is
keyed by its record's short code, that code is the base62 encoding of the
record's id, ids are pairwise distinct, and every id lies in `[1, counter]`. -/
def Inv (m : MemoryStorage) : Prop :=
  (∀ p ∈ m.urls,
      p.1 = p.2.ShortCode ∧ p.2.ShortCode = EncodeBase62 p.2.ID ∧
      1 ≤ p.2.ID ∧ p.2.ID ≤ m.counter) ∧
  m.urls.Pairwise (fun p q => p.2.ID ≠ q.2.ID)

instance (m : MemoryStorage) : Decidable (Inv m) := by
  unfold Inv; infer_instance

/-- State of `N` in-flight `Store` calls sharing one atomic counter:
`counter` is the current `uint64` counter value, `tids` holds, per call,
the id it has received (`none` while still pending). -/
structure ConcState where
  counter : Nat
  tids : List (Option Nat)
deriving DecidableEq

/-- One atomic step of a pending `Store` call: thread `i` performs the atomic
increment (`atomic.AddUint64` in `storage/memory.go`, the Redis `INCR` in
`storage/redis.go`) and receives the incremented value as its id.  Threads
step in any interleaving order. -/
inductive StoreStep : ConcState → ConcState → Prop
  | incr (s : ConcState) (i : Nat) (h : i < s.tids.length)
      (hpending : s.tids.get ⟨i, h⟩ = none) :
      StoreStep s ⟨(s.counter + 1) % U64, s.tids.set i (some ((s.counter + 1) % U64))⟩

end storage

-- Concrete sanity checks of the store model.
example :
    ((storage.NewMemoryStorage "http://localhost:8080").Store
      ⟨0, "", "https://example.com/a", none, 0⟩ 0).1 = "1" := by decide
example :
    (((storage.NewMemoryStorage "x").Store ⟨0, "", "https://a", none, 0⟩ 0).2.Get "1" 5) =
      Except.ok ⟨1, "1", "https://a", none, 0⟩ := by decide
example :
    (((storage.NewMemoryStorage "x").Store ⟨0, "", "https://a", some (-1), 0⟩ 0).2.Get "1" 5) =
      Except.error "URL has expired: 1" := by decide

/-! ## Lemmas about the base62 codec -/

namespace utils

/-- The encode loop, given enough fuel, produces the base-62 digits of its
argument (least-significant first, as `Nat.digits`), mapped to characters and
reversed (most-significant first). -/
theorem encodeLoop_eq (fuel : Nat) : ∀ id : Nat, id ≤ fuel →
    encodeLoop fuel id = ((Nat.digits 62 id).map base62Char).reverse := by
  induction fuel with
  | zero =>
    intro id h
    have : id = 0 := Nat.le_zero.mp h
    subst this
    simp [encodeLoop]
  | succ fuel ih =>
    intro id h
    by_cases hid : id = 0
    · subst hid; simp [encodeLoop]
    · have hdiv : id / 62 ≤ fuel := by
        have h1 : id / 62 < id := Nat.div_lt_self (Nat.pos_of_ne_zero hid) (by norm_num)
        omega
      rw [encodeLoop, if_neg hid, ih (id / 62) hdiv,
        Nat.digits_def' (by norm_num : 1 < 62) (Nat.pos_of_ne_zero hid)]
      simp

/-- Each alphabet index decodes back to itself through the character map. -/
theorem charValue_base62Char : ∀ d : Nat, d < 62 → charValue (base62Char d) = some d := by decide

/-- A nonzero alphabet index never maps to the character `'0'`. -/
theorem base62Char_ne_zero : ∀ d : Nat, d < 62 → d ≠ 0 → base62Char d ≠ '0' := by decide

/-- The alphabet map is injective below 62. -/
theorem base62Char_inj :
    ∀ d : Nat, d < 62 → ∀ e : Nat, e < 62 → base62Char d = base62Char e → d = e := by
  decide

/-- The decode loop over a list of in-range digit characters
(least-significant first) computes the base-62 value, modulo `2^64`. -/
theorem decodeLoop_map (ds : List Nat) (hds : ∀ d ∈ ds, d < 62) :
    ∀ base result : Nat, result < U64 →
      decodeLoop (ds.map base62Char) base result =
        some ((result + Nat.ofDigits 62 ds * base) % U64) := by
  induction ds with
  | nil =>
    intro base result hres
    simp [decodeLoop, Nat.ofDigits_nil, Nat.mod_eq_of_lt hres]
  | cons d rest ih =>
    intro base result hres
    have hd : d < 62 := hds d (List.mem_cons_self d rest)
    have hrest : ∀ x ∈ rest, x < 62 := fun x hx => hds x (List.mem_cons_of_mem d hx)
    have hres' : (result + d * base) % U64 < U64 := Nat.mod_lt _ (by decide)
    rw [List.map_cons, decodeLoop, charValue_base62Char d hd]
    show decodeLoop (List.map base62Char rest) (base * 62 % U64) ((result + d * base) % U64) =
      some ((result + Nat.ofDigits 62 (d :: rest) * base) % U64)
    rw [ih hrest (base * 62 % U64) ((result + d * base) % U64) hres']
    congr 1
    have h1 : (result + d * base) % U64 ≡ result + d * base [MOD U64] := Nat.mod_modEq _ _
    have h2 : Nat.ofDigits 62 rest * (base * 62 % U64) ≡
        Nat.ofDigits 62 rest * (base * 62) [MOD U64] := (Nat.mod_modEq _ _).mul_left _
    have h3 := h1.add h2
    have h4 : result + d * base + Nat.ofDigits 62 rest * (base * 62) =
        result + (d + 62 * Nat.ofDigits 62 rest) * base := by ring
    calc ((result + d * base) % U64 + Nat.ofDigits 62 rest * (base * 62 % U64)) % U64
        = (result + d * base + Nat.ofDigits 62 rest * (base * 62)) % U64 := h3
      _ = (result + (d + 62 * Nat.ofDigits 62 rest) * base) % U64 := by rw [h4]
      _ = (result + Nat.ofDigits 62 (d :: rest) * base) % U64 := by
          rw [Nat.ofDigits_cons]

/-- Round-trip of the codec on the whole `uint64` range. -/
theorem decode_encode (n : Nat) (h : n < U64) : DecodeBase62 (EncodeBase62 n) = n := by
  by_cases hn : n = 0
  · subst hn; decide
  · unfold DecodeBase62 EncodeBase62
    rw [if_neg hn]
    show (decodeLoop (encodeLoop n n).reverse 1 0).getD 0 = n
    rw [encodeLoop_eq n n le_rfl, List.reverse_reverse]
    rw [decodeLoop_map (Nat.digits 62 n)
      (fun d hd => Nat.digits_lt_base (by norm_num) hd) 1 0 (by decide)]
    simp [Nat.ofDigits_digits, Nat.mod_eq_of_lt h]

/-- If any character of the list is invalid, the decode loop signals the
early `return 0`. -/
theorem decodeLoop_invalid : ∀ l : List Char, (∃ c ∈ l, charValue c = none) →
    ∀ base result : Nat, decodeLoop l base result = none := by
  intro l
  induction l with
  | nil => rintro ⟨c, hc, _⟩; cases hc
  | cons a rest ih =>
    rintro ⟨c, hc, hval⟩ base result
    rcases List.mem_cons.mp hc with rfl | hmem
    · simp [decodeLoop, hval]
    · cases hca : charValue a with
      | none => simp [decodeLoop, hca]
      | some v =>
        simp only [decodeLoop, hca]
        exact ih ⟨c, hmem, hval⟩ _ _

end utils

/-! ## Lemmas about the local store -/

namespace storage

open utils models

/-- Looking up the key just inserted yields the inserted record. -/
theorem mapLookup_insert_self (k : String) (v : URLMapping) (l : List (String × URLMapping)) :
    mapLookup k (mapInsert k v l) = some v := by
  simp [mapInsert, mapLookup]

/-- Erasing key `k` does not change lookups of other keys. -/
theorem mapLookup_erase_ne (k s : String) (hne : k ≠ s) :
    ∀ l : List (String × URLMapping), mapLookup s (mapErase k l) = mapLookup s l := by
  intro l
  induction l with
  | nil => rfl
  | cons p rest ih =>
    obtain ⟨k', v⟩ := p
    by_cases h : k' = k
    · subst h
      simp only [mapErase, if_pos rfl, mapLookup, if_neg hne]
      exact ih
    · simp only [mapErase, if_neg h, mapLookup]
      by_cases hs : k' = s
      · simp [hs]
      · simp only [if_neg hs]; exact ih

/-- Inserting under key `k` does not change lookups of other keys. -/
theorem mapLookup_insert_ne (k s : String) (hne : k ≠ s) (v : URLMapping)
    (l : List (String × URLMapping)) :
    mapLookup s (mapInsert k v l) = mapLookup s l := by
  simp only [mapInsert, mapLookup, if_neg hne]
  exact mapLookup_erase_ne k s hne l

/-- Erasure produces a sublist of the original bindings. -/
theorem mapErase_sublist (k : String) :
    ∀ l : List (String × URLMapping), (mapErase k l).Sublist l := by
  intro l
  induction l with
  | nil => simp [mapErase]
  | cons p rest ih =>
    obtain ⟨k', v⟩ := p
    by_cases h : k' = k
    · simpa [mapErase, h] using ih.cons (k', v)
    · simpa [mapErase, h] using ih.cons₂ (k', v)

/-- After a batch of stores from a store `m`, any key that resolves in the
final map either already resolved in `m` or is one of the returned codes. -/
theorem runStores_lookup_mem (ops : List (URLMapping × Int)) :
    ∀ (m : MemoryStorage) (s : String),
      mapLookup s (runStores m ops).1.urls ≠ none →
      mapLookup s m.urls ≠ none ∨ s ∈ (runStores m ops).2 := by
  induction ops with
  | nil => intro m s h; exact Or.inl h
  | cons op rest ih =>
    intro m s h
    obtain ⟨r, now⟩ := op
    simp only [runStores] at h ⊢
    by_cases hcode : (m.Store r now).1 = s
    · exact Or.inr (List.mem_cons.mpr (Or.inl hcode.symm))
    · rcases ih (m.Store r now).2 s h with hl | hmem
      · left
        have hins : mapLookup s (m.Store r now).2.urls = mapLookup s m.urls := by
          simp only [MemoryStorage.Store]
          exact mapLookup_insert_ne _ s hcode _ m.urls
        rw [hins] at hl
        exact hl
      · exact Or.inr (List.mem_cons.mpr (Or.inr hmem))

/-! ## Lemmas for the concurrent-store model -/

/-- `filterMap id` over `replicate N none` is empty. -/
theorem filterMap_id_replicate_none (N : Nat) :
    (List.replicate N (none : Option Nat)).filterMap id = [] := by
  induction N with
  | zero => rfl
  | succ n ih => simp [List.replicate_succ, ih]

/-- Setting a pending (`none`) slot to `some x` adds exactly `x` to the
collected ids, up to permutation. -/
theorem filterMap_id_set_none (l : List (Option Nat)) :
    ∀ (i : Nat) (h : i < l.length), l.get ⟨i, h⟩ = none → ∀ x : Nat,
      ((l.set i (some x)).filterMap id).Perm (x :: l.filterMap id) := by
  induction l with
  | nil => intro i h; exact absurd h (Nat.not_lt_zero i)
  | cons o rest ih =>
    intro i h hget x
    cases i with
    | zero =>
      cases o with
      | none => simp [List.set]
      | some a => cases hget
    | succ i =>
      have hlt : i < rest.length := by simpa using h
      have hget' : rest.get ⟨i, hlt⟩ = none := hget
      have hp := ih i hlt hget' x
      cases o with
      | none => simpa [List.set] using hp
      | some a =>
        simp only [List.set, List.filterMap_cons, id]
        exact (hp.cons a).trans (List.Perm.swap x a (rest.filterMap id))

/-- A list with a pending slot has strictly fewer collected ids than slots. -/
theorem filterMap_id_length_lt (l : List (Option Nat)) :
    ∀ (i : Nat) (h : i < l.length), l.get ⟨i, h⟩ = none →
      (l.filterMap id).length < l.length := by
  induction l with
  | nil => intro i h; exact absurd h (Nat.not_lt_zero i)
  | cons o rest ih =>
    intro i h hget
    cases i with
    | zero =>
      cases o with
      | none =>
        have := List.length_filterMap_le (id : Option Nat → Option Nat) rest
        simpa [List.filterMap_cons] using Nat.lt_succ_of_le this
      | some a => cases hget
    | succ i =>
      have hlt : i < rest.length := by simpa using h
      have := ih i hlt hget
      cases o with
      | none => simpa [List.filterMap_cons] using Nat.lt_succ_of_lt this
      | some a => simpa [List.filterMap_cons] using this

/-- Once every slot holds an id, the number of collected ids is the number of
slots. -/
theorem filterMap_id_length_eq (l : List (Option Nat)) (h : ∀ o ∈ l, o.isSome) :
    (l.filterMap id).length = l.length := by
  induction l with
  | nil => rfl
  | cons o rest ih =>
    cases o with
    | none => exact absurd (h none (List.mem_cons_self _ _)) (by simp)
    | some a =>
      have := ih (fun o ho => h o (List.mem_cons_of_mem _ ho))
      simpa [List.filterMap_cons] using this

/-- Inductive invariant of the interleaved execution: slot count is stable,
the counter has advanced once per assigned id, the assigned ids are pairwise
distinct, and every assigned id lies in `(c0, counter]`. -/
def ConcInv (c0 N : Nat) (s : ConcState) : Prop :=
  s.tids.length = N ∧
  s.counter = c0 + (s.tids.filterMap id).length ∧
  (s.tids.filterMap id).Nodup ∧
  ∀ a ∈ s.tids.filterMap id, c0 < a ∧ a ≤ s.counter

/-- The initial state (fresh threads, counter at `c0`) satisfies the
invariant. -/
theorem concInv_start (c0 N : Nat) :
    ConcInv c0 N ⟨c0, List.replicate N none⟩ := by
  refine ⟨List.length_replicate N none, ?_, ?_, ?_⟩ <;>
    simp [filterMap_id_replicate_none]

/-- The invariant is preserved by every atomic-increment step, as long as the
counter cannot wrap around. -/
theorem concInv_step (c0 N : Nat) (hN : c0 + N < U64) (s s' : ConcState)
    (hstep : StoreStep s s') (hinv : ConcInv c0 N s) : ConcInv c0 N s' := by
  obtain ⟨hlen, hcount, hnodup, hbound⟩ := hinv
  cases hstep with
  | incr i h hpending =>
    have hk : (s.tids.filterMap id).length < N := by
      rw [← hlen]; exact filterMap_id_length_lt s.tids i h hpending
    have hmod : (s.counter + 1) % U64 = s.counter + 1 := by
      apply Nat.mod_eq_of_lt; omega
    have hperm := filterMap_id_set_none s.tids i h hpending ((s.counter + 1) % U64)
    refine ⟨by simpa using hlen, ?_, ?_, ?_⟩
    · show (s.counter + 1) % U64 =
        c0 + ((s.tids.set i (some ((s.counter + 1) % U64))).filterMap id).length
      rw [hperm.length_eq, List.length_cons]
      omega
    · show ((s.tids.set i (some ((s.counter + 1) % U64))).filterMap id).Nodup
      rw [hperm.nodup_iff, List.nodup_cons]
      refine ⟨?_, hnodup⟩
      intro hmem
      have hle := (hbound _ hmem).2
      omega
    · intro a ha
      have ha' : a ∈ (s.tids.set i (some ((s.counter + 1) % U64))).filterMap id := ha
      show c0 < a ∧ a ≤ (s.counter + 1) % U64
      rcases List.mem_cons.mp (hperm.mem_iff.mp ha') with rfl | hmem
      · constructor <;> omega
      · have hb := hbound a hmem
        constructor <;> omega

/-- The invariant holds in every reachable state. -/
theorem concInv_reachable (c0 N : Nat) (hN : c0 + N < U64) (s : ConcState)
    (hreach : Relation.ReflTransGen StoreStep ⟨c0, List.replicate N none⟩ s) :
    ConcInv c0 N s := by
  induction hreach with
  | refl => exact concInv_start c0 N
  | tail _ hstep ih => exact concInv_step c0 N hN _ _ hstep ih

end storage

/-! ## Claim theorems -/

/-- C1: for every `uint64` value `n` in `[0, 2^64 - 1]`,
`DecodeBase62 (EncodeBase62 n) = n`, over the 62-character alphabet with
digits first, then lowercase, then uppercase. -/
theorem C1_base62_roundtrip (n : Nat) (h : n < 2 ^ 64) :
    utils.DecodeBase62 (utils.EncodeBase62 n) = n :=
  utils.decode_encode n h

/-- Witness for C1 at `n = 2^64 - 1`. -/
theorem C1_base62_roundtrip_witness :
    2 ^ 64 - 1 < 2 ^ 64 ∧
    utils.DecodeBase62 (utils.EncodeBase62 (2 ^ 64 - 1)) = 2 ^ 64 - 1 :=
  ⟨by decide, C1_base62_roundtrip (2 ^ 64 - 1) (by decide)⟩

/-- C6: `EncodeBase62 0 = "0"`, `EncodeBase62 61` is the alphabet's last
single character `"Z"`, `EncodeBase62 62` is the first two-character code
`"10"`, and for `n > 0` the result never starts with the padding digit
`'0'`. -/
theorem C6_encode_boundaries :
    utils.EncodeBase62 0 = "0" ∧ utils.EncodeBase62 61 = "Z" ∧
    utils.EncodeBase62 62 = "10" ∧
    ∀ n : Nat, 0 < n → (utils.EncodeBase62 n).toList.head? ≠ some '0' := by
  refine ⟨by decide, by decide, by decide, ?_⟩
  intro n hn
  have hne : n ≠ 0 := Nat.pos_iff_ne_zero.mp hn
  have h1 : utils.EncodeBase62 n = ⟨utils.encodeLoop n n⟩ := by
    unfold utils.EncodeBase62; rw [if_neg hne]
  rw [h1]
  have h2 : (⟨utils.encodeLoop n n⟩ : String).toList = utils.encodeLoop n n := rfl
  rw [h2, utils.encodeLoop_eq n n le_rfl, List.head?_reverse, List.getLast?_map]
  have hnil : Nat.digits 62 n ≠ [] := Nat.digits_ne_nil_iff_ne_zero.mpr hne
  rw [List.getLast?_eq_getLast _ hnil]
  have hlast := Nat.getLast_digit_ne_zero 62 hne
  have hmem := List.getLast_mem hnil
  have hlt : (Nat.digits 62 n).getLast hnil < 62 :=
    Nat.digits_lt_base (by norm_num) hmem
  have hch := utils.base62Char_ne_zero _ hlt hlast
  intro hcontra
  exact hch (Option.some.inj hcontra)

/-- Witness for C6 at `n = 63`. -/
theorem C6_encode_boundaries_witness :
    (0 : Nat) < 63 ∧ (utils.EncodeBase62 63).toList.head? ≠ some '0' :=
  ⟨by decide, C6_encode_boundaries.2.2.2 63 (by decide)⟩

/-- C7: for every string containing a character outside the 62-character
alphabet `[0-9a-zA-Z]`, `DecodeBase62` returns `0` rather than signalling an
error. -/
theorem C7_decode_invalid_returns_zero (s : String)
    (h : ∃ c ∈ s.toList,
      ¬(('0' ≤ c ∧ c ≤ '9') ∨ ('a' ≤ c ∧ c ≤ 'z') ∨ ('A' ≤ c ∧ c ≤ 'Z'))) :
    utils.DecodeBase62 s = 0 := by
  obtain ⟨c, hc, hout⟩ := h
  have hval : utils.charValue c = none := by
    unfold utils.charValue
    rw [if_neg (fun h1 => hout (Or.inl h1)),
      if_neg (fun h2 => hout (Or.inr (Or.inl h2))),
      if_neg (fun h3 => hout (Or.inr (Or.inr h3)))]
  have hnone : utils.decodeLoop s.toList.reverse 1 0 = none :=
    utils.decodeLoop_invalid s.toList.reverse ⟨c, List.mem_reverse.mpr hc, hval⟩ 1 0
  unfold utils.DecodeBase62
  rw [hnone]
  rfl

/-- Witness for C7 on the input `"abc!"`. -/
theorem C7_decode_invalid_returns_zero_witness :
    (∃ c ∈ "abc!".toList,
      ¬(('0' ≤ c ∧ c ≤ '9') ∨ ('a' ≤ c ∧ c ≤ 'z') ∨ ('A' ≤ c ∧ c ≤ 'Z'))) ∧
    utils.DecodeBase62 "abc!" = 0 :=
  ⟨by decide, C7_decode_invalid_returns_zero "abc!" (by decide)⟩

/-- C2: however the atomic-increment steps of `N` concurrent `Store` calls
interleave (local `atomic.AddUint64` or shared `INCR`, both modelled by
`StoreStep`), once all `N` calls have received an id, the `N` ids are
pairwise distinct and so are the `N` base62 short codes derived from them;
the initial counter `c0` is arbitrary as long as `2^64` increments cannot
occur. -/
theorem C2_concurrent_store_distinct (N c0 : Nat) (s : storage.ConcState)
    (hN : c0 + N < 2 ^ 64)
    (hreach : Relation.ReflTransGen storage.StoreStep ⟨c0, List.replicate N none⟩ s)
    (hdone : ∀ o ∈ s.tids, o.isSome) :
    (s.tids.filterMap id).length = N ∧
    (s.tids.filterMap id).Nodup ∧
    ((s.tids.filterMap id).map utils.EncodeBase62).Nodup := by
  have hinv := storage.concInv_reachable c0 N hN s hreach
  obtain ⟨hlen, hcount, hnodup, hbound⟩ := hinv
  refine ⟨?_, hnodup, ?_⟩
  · rw [storage.filterMap_id_length_eq s.tids hdone, hlen]
  · refine List.Nodup.map_on ?_ hnodup
    intro x hx y hy hxy
    have hxb := hbound x hx
    have hyb := hbound y hy
    have hfl : (s.tids.filterMap id).length ≤ s.tids.length :=
      List.length_filterMap_le _ _
    have hU : U64 = 2 ^ 64 := rfl
    have hxU : x < U64 := by omega
    have hyU : y < U64 := by omega
    have hdx := utils.decode_encode x hxU
    have hdy := utils.decode_encode y hyU
    rw [← hdx, ← hdy, hxy]

/-- Witness for C2: two concurrent calls stepping in order receive ids 1 and
2 and codes `"1"` and `"2"`. -/
theorem C2_concurrent_store_distinct_witness :
    ((⟨2, [some 1, some 2]⟩ : storage.ConcState).tids.filterMap id).length = 2 ∧
    ((⟨2, [some 1, some 2]⟩ : storage.ConcState).tids.filterMap id).Nodup ∧
    (((⟨2, [some 1, some 2]⟩ : storage.ConcState).tids.filterMap id).map
      utils.EncodeBase62).Nodup :=
  C2_concurrent_store_distinct 2 0 ⟨2, [some 1, some 2]⟩ (by decide)
    (Relation.ReflTransGen.tail
      (Relation.ReflTransGen.tail Relation.ReflTransGen.refl
        (storage.StoreStep.incr ⟨0, [none, none]⟩ 0 (by decide) (by decide)))
      (storage.StoreStep.incr ⟨1, [some 1, none]⟩ 1 (by decide) (by decide)))
    (by decide)

/-- C3: after any batch of stores on a fresh local store, `Get` returns the
not-found error for a code never returned by any store, returns the expired
error (and not the record) when the record found under the code has passed
its expiration at lookup time, and returns the stored record otherwise; the
shared store's `Get` behaves identically on its fetch outcomes. -/
theorem C3_get_semantics (b : String) (ops : List (models.URLMapping × Int))
    (s : String) (now : Int) :
    (s ∉ (storage.runStores (storage.NewMemoryStorage b) ops).2 →
      (storage.runStores (storage.NewMemoryStorage b) ops).1.Get s now =
        Except.error ("short code not found: " ++ s)) ∧
    (∀ r : models.URLMapping,
      storage.mapLookup s (storage.runStores (storage.NewMemoryStorage b) ops).1.urls =
          some r →
      (storage.IsExpired r now = true →
        (storage.runStores (storage.NewMemoryStorage b) ops).1.Get s now =
          Except.error ("URL has expired: " ++ s)) ∧
      (storage.IsExpired r now = false →
        (storage.runStores (storage.NewMemoryStorage b) ops).1.Get s now =
          Except.ok r)) ∧
    (storage.RedisStorage.Get (Except.ok none) s now =
      Except.error ("short code not found: " ++ s)) ∧
    (∀ r : models.URLMapping, storage.IsExpired r now = true →
      storage.RedisStorage.Get (Except.ok (some r)) s now =
        Except.error ("URL has expired: " ++ s)) ∧
    (∀ r : models.URLMapping, storage.IsExpired r now = false →
      storage.RedisStorage.Get (Except.ok (some r)) s now = Except.ok r) := by
  refine ⟨?_, ?_, rfl, ?_, ?_⟩
  · intro hnot
    have hnone : storage.mapLookup s
        (storage.runStores (storage.NewMemoryStorage b) ops).1.urls = none := by
      by_contra hne
      rcases storage.runStores_lookup_mem ops (storage.NewMemoryStorage b) s hne with hl | hmem
      · exact hl rfl
      · exact hnot hmem
    simp [storage.MemoryStorage.Get, hnone]
  · intro r hr
    constructor
    · intro hexp
      simp [storage.MemoryStorage.Get, hr, hexp]
    · intro hexp
      simp [storage.MemoryStorage.Get, hr, hexp]
  · intro r hexp
    simp [storage.RedisStorage.Get, hexp]
  · intro r hexp
    simp [storage.RedisStorage.Get, hexp]

/-- Witness for C3: two stores (the second already expired), then the three
`Get` outcomes. -/
theorem C3_get_semantics_witness :
    ("zz" ∉ (storage.runStores (storage.NewMemoryStorage "x")
        [(⟨0, "", "https://example.com/a", none, 0⟩, 0),
         (⟨0, "", "https://example.com/b", some (-1), 0⟩, 0)]).2 ∧
      (storage.runStores (storage.NewMemoryStorage "x")
        [(⟨0, "", "https://example.com/a", none, 0⟩, 0),
         (⟨0, "", "https://example.com/b", some (-1), 0⟩, 0)]).1.Get "zz" 5 =
        Except.error ("short code not found: " ++ "zz")) ∧
    ((storage.runStores (storage.NewMemoryStorage "x")
        [(⟨0, "", "https://example.com/a", none, 0⟩, 0),
         (⟨0, "", "https://example.com/b", some (-1), 0⟩, 0)]).1.Get "2" 5 =
      Except.error ("URL has expired: " ++ "2")) ∧
    ((storage.runStores (storage.NewMemoryStorage "x")
        [(⟨0, "", "https://example.com/a", none, 0⟩, 0),
         (⟨0, "", "https://example.com/b", some (-1), 0⟩, 0)]).1.Get "1" 5 =
      Except.ok ⟨1, "1", "https://example.com/a", none, 0⟩) :=
  ⟨⟨by decide,
    (C3_get_semantics "x"
      [(⟨0, "", "https://example.com/a", none, 0⟩, 0),
       (⟨0, "", "https://example.com/b", some (-1), 0⟩, 0)] "zz" 5).1 (by decide)⟩,
   ((C3_get_semantics "x"
      [(⟨0, "", "https://example.com/a", none, 0⟩, 0),
       (⟨0, "", "https://example.com/b", some (-1), 0⟩, 0)] "2" 5).2.1
     ⟨2, "2", "https://example.com/b", some (-1), 0⟩ (by decide)).1 (by decide),
   ((C3_get_semantics "x"
      [(⟨0, "", "https://example.com/a", none, 0⟩, 0),
       (⟨0, "", "https://example.com/b", some (-1), 0⟩, 0)] "1" 5).2.1
     ⟨1, "1", "https://example.com/a", none, 0⟩ (by decide)).2 (by decide)⟩

/-- C4 as stated is false on the code: when the stored record's
`expiration_date` is already past, `Store` succeeds with code `"1"` but the
immediate `Get` returns the expired error instead of succeeding. -/
theorem C4_counterexample :
    ((storage.NewMemoryStorage "x").Store
        ⟨0, "", "https://example.com/a", some (-1), 0⟩ 0).2.Get
      ((storage.NewMemoryStorage "x").Store
        ⟨0, "", "https://example.com/a", some (-1), 0⟩ 0).1 0 =
      Except.error "URL has expired: 1" := by decide

/-- C4 (amended): for every record whose `expiration_date` is unset or not
yet past at lookup time, a `Get` with the code returned by `Store` succeeds
and returns the stored `long_url`. -/
theorem C4_store_then_get (m : storage.MemoryStorage) (r : models.URLMapping)
    (now : Int) (hexp : storage.IsExpired r now = false) :
    ∃ rr : models.URLMapping,
      (m.Store r now).2.Get (m.Store r now).1 now = Except.ok rr ∧
      rr.LongURL = r.LongURL := by
  refine ⟨{ r with
      ID := (m.counter + 1) % U64,
      ShortCode := utils.EncodeBase62 ((m.counter + 1) % U64),
      CreatedAt := now }, ?_, rfl⟩
  simp only [storage.MemoryStorage.Store, storage.MemoryStorage.Get]
  rw [storage.mapLookup_insert_self]
  have hexp2 : storage.IsExpired
      { r with
        ID := (m.counter + 1) % U64,
        ShortCode := utils.EncodeBase62 ((m.counter + 1) % U64),
        CreatedAt := now } now = false := hexp
  simp [hexp2]

/-- Witness for C4: a store with no expiration is immediately readable. -/
theorem C4_store_then_get_witness :
    storage.IsExpired ⟨0, "", "https://example.com/a", none, 0⟩ 5 = false ∧
    ∃ rr : models.URLMapping,
      ((storage.NewMemoryStorage "x").Store
          ⟨0, "", "https://example.com/a", none, 0⟩ 5).2.Get
        ((storage.NewMemoryStorage "x").Store
          ⟨0, "", "https://example.com/a", none, 0⟩ 5).1 5 = Except.ok rr ∧
      rr.LongURL = "https://example.com/a" :=
  ⟨by decide,
   C4_store_then_get (storage.NewMemoryStorage "x")
     ⟨0, "", "https://example.com/a", none, 0⟩ 5 (by decide)⟩

/-- C5: on a fresh local store the first `Store` returns code `"1"`, the
second returns `"2"`, and `Get` on the never-stored code `"nonexistent"`
returns the not-found error. -/
theorem C5_fresh_store_first_codes :
    ((storage.NewMemoryStorage "http://localhost:8080").Store
      ⟨0, "", "https://example.com/a", none, 0⟩ 0).1 = "1" ∧
    (((storage.NewMemoryStorage "http://localhost:8080").Store
        ⟨0, "", "https://example.com/a", none, 0⟩ 0).2.Store
      ⟨0, "", "https://example.com/b", none, 0⟩ 0).1 = "2" ∧
    (((storage.NewMemoryStorage "http://localhost:8080").Store
        ⟨0, "", "https://example.com/a", none, 0⟩ 0).2.Store
      ⟨0, "", "https://example.com/b", none, 0⟩ 0).2.Get "nonexistent" 0 =
      Except.error "short code not found: nonexistent" := by decide

/-- C8 as stated is false on the code: the local store's `Get` error for an
expired record (`"URL has expired: <code>"`) is textually different from its
error for a never-stored code (`"short code not found: <code>"`). -/
theorem C8_counterexample :
    (((storage.NewMemoryStorage "x").Store
        ⟨0, "", "https://example.com/a", some (-1), 0⟩ 0).2.Get "1" 0 =
      Except.error "URL has expired: 1") ∧
    ((storage.NewMemoryStorage "x").Get "1" 0 =
      Except.error "short code not found: 1") ∧
    "URL has expired: 1" ≠ "short code not found: 1" := by decide

/-- C8 (amended): the local store's expired error text is always textually
distinct from its not-found error text, for every short code. -/
theorem C8_expired_text_distinct (m : storage.MemoryStorage) (s : String)
    (now : Int) :
    (∀ r : models.URLMapping, storage.mapLookup s m.urls = some r →
      storage.IsExpired r now = true →
      m.Get s now = Except.error ("URL has expired: " ++ s)) ∧
    (storage.mapLookup s m.urls = none →
      m.Get s now = Except.error ("short code not found: " ++ s)) ∧
    ("URL has expired: " ++ s) ≠ ("short code not found: " ++ s) := by
  refine ⟨?_, ?_, ?_⟩
  · intro r hr hexp
    simp [storage.MemoryStorage.Get, hr, hexp]
  · intro hnone
    simp [storage.MemoryStorage.Get, hnone]
  · intro hcontra
    have hlen := congrArg String.length hcontra
    rw [String.length_append, String.length_append] at hlen
    have l1 : ("URL has expired: " : String).length = 17 := by decide
    have l2 : ("short code not found: " : String).length = 22 := by decide
    omega

/-- Witness for C8: the two error texts on a store holding an expired record
under `"1"`. -/
theorem C8_expired_text_distinct_witness :
    (((storage.NewMemoryStorage "x").Store
        ⟨0, "", "https://example.com/a", some (-1), 0⟩ 0).2.Get "1" 0 =
      Except.error ("URL has expired: " ++ "1")) ∧
    ((storage.NewMemoryStorage "x").Get "zz" 0 =
      Except.error ("short code not found: " ++ "zz")) ∧
    ("URL has expired: " ++ "1") ≠ ("short code not found: " ++ "1") :=
  ⟨(C8_expired_text_distinct
      ((storage.NewMemoryStorage "x").Store
        ⟨0, "", "https://example.com/a", some (-1), 0⟩ 0).2 "1" 0).1
     ⟨1, "1", "https://example.com/a", some (-1), 0⟩ (by decide) (by decide),
   (C8_expired_text_distinct (storage.NewMemoryStorage "x") "zz" 0).2.1 (by decide),
   (C8_expired_text_distinct (storage.NewMemoryStorage "x") "1" 0).2.2⟩

/-- C9: `GetStats` never fails the caller: on the shared backend a failed
key scan degrades `total_urls` to `0` while still reporting the current
counter, a successful scan reports its count, and the local store always
returns its map size and counter. -/
theorem C9_getstats_never_fails :
    (∀ (counter : Nat) (e : String),
      storage.RedisStorage.GetStats counter (Except.error e) =
        { total_urls := 0, current_counter := counter, storage_type := "redis" }) ∧
    (∀ counter n : Nat,
      storage.RedisStorage.GetStats counter (Except.ok n) =
        { total_urls := n, current_counter := counter, storage_type := "redis" }) ∧
    (∀ m : storage.MemoryStorage,
      m.GetStats = { total_urls := m.urls.length, current_counter := m.counter,
                     storage_type := "memory" }) :=
  ⟨fun _ _ => rfl, fun _ _ => rfl, fun _ => rfl⟩

/-- C10 as stated is false on the code: at counter value `2^64 - 1` the next
`Store` wraps the `uint64` counter to `0`, storing a record with id `0`,
which violates the claimed `id ≥ 1` (and `id ≤ counter`) invariant even
though the invariant held before the call. -/
theorem C10_counterexample :
    storage.Inv { urls := [], counter := 2 ^ 64 - 1, baseURL := "x" } ∧
    ¬ storage.Inv (({ urls := [], counter := 2 ^ 64 - 1, baseURL := "x" } :
        storage.MemoryStorage).Store ⟨0, "", "https://example.com/a", none, 0⟩ 0).2 := by
  decide

/-- C10 (amended): construction establishes the invariant, and `Store`
preserves it provided the `uint64` counter does not wrap around (`Get` and
`GetStats` read the store without modifying it). -/
theorem C10_inv_preserved :
    (∀ baseURL : String, storage.Inv (storage.NewMemoryStorage baseURL)) ∧
    (∀ (m : storage.MemoryStorage) (r : models.URLMapping) (now : Int),
      storage.Inv m → m.counter + 1 < 2 ^ 64 → storage.Inv (m.Store r now).2) := by
  constructor
  · intro baseURL
    exact ⟨fun p hp => absurd hp (List.not_mem_nil p), List.Pairwise.nil⟩
  · intro m r now hinv hlt
    obtain ⟨hAll, hPair⟩ := hinv
    have hmod : (m.counter + 1) % U64 = m.counter + 1 := Nat.mod_eq_of_lt hlt
    constructor
    · intro p hp
      have hp' : p ∈ ((utils.EncodeBase62 ((m.counter + 1) % U64),
          { r with
            ID := (m.counter + 1) % U64,
            ShortCode := utils.EncodeBase62 ((m.counter + 1) % U64),
            CreatedAt := now }) ::
          storage.mapErase (utils.EncodeBase62 ((m.counter + 1) % U64)) m.urls) := hp
      show p.1 = p.2.ShortCode ∧ p.2.ShortCode = utils.EncodeBase62 p.2.ID ∧
        1 ≤ p.2.ID ∧ p.2.ID ≤ (m.counter + 1) % U64
      rcases List.mem_cons.mp hp' with rfl | hmem
      · refine ⟨rfl, rfl, ?_, le_refl _⟩
        show 1 ≤ (m.counter + 1) % U64
        omega
      · have hsub := (storage.mapErase_sublist _ m.urls).subset hmem
        have h3 := hAll p hsub
        refine ⟨h3.1, h3.2.1, h3.2.2.1, ?_⟩
        have h4 := h3.2.2.2
        omega
    · show ((utils.EncodeBase62 ((m.counter + 1) % U64),
          { r with
            ID := (m.counter + 1) % U64,
            ShortCode := utils.EncodeBase62 ((m.counter + 1) % U64),
            CreatedAt := now }) ::
          storage.mapErase (utils.EncodeBase62 ((m.counter + 1) % U64)) m.urls).Pairwise
        (fun p q => p.2.ID ≠ q.2.ID)
      refine List.Pairwise.cons ?_
        (List.Pairwise.sublist (storage.mapErase_sublist _ m.urls) hPair)
      intro q hq
      have hqmem := (storage.mapErase_sublist _ m.urls).subset hq
      have h4 := (hAll q hqmem).2.2.2
      show (m.counter + 1) % U64 ≠ q.2.ID
      omega

/-- Witness for C10: a fresh store satisfies the invariant and keeps it
after one `Store`. -/
theorem C10_inv_preserved_witness :
    storage.Inv (storage.NewMemoryStorage "x") ∧
    (storage.NewMemoryStorage "x").counter + 1 < 2 ^ 64 ∧
    storage.Inv ((storage.NewMemoryStorage "x").Store
      ⟨0, "", "https://example.com/a", none, 0⟩ 0).2 :=
  ⟨C10_inv_preserved.1 "x", by decide,
   C10_inv_preserved.2 (storage.NewMemoryStorage "x")
     ⟨0, "", "https://example.com/a", none, 0⟩ 0 (C10_inv_preserved.1 "x") (by decide)⟩
